import Mathlib

/-!
Shallow embedding of the dice domain model and dice service of the
`cof_dpm` repository (crates `cof` and `dice_server`), together with
proofs about it.

Source files embedded here:
* `src/cof/src/model/dice/dice_type.rs` : the `Dice` enumeration,
  `side_count`, `roll`, `TryFrom<&str>` and `Display`.
* `src/cof/src/model/dice/dice_set.rs`  : `DiceSet`, bounds, `roll`,
  `FromStr` (regex scanning) and `Display`, `RolledDiceSet::total`.
* `src/cof/src/model/dice/mod.rs`       : the model `Error` enum.
* `src/cof/src/services/dice/mod.rs`    : `RollId` (UUID wrapper) and
  the service `Error` enum.
* `src/cof/src/services/dice/service.rs` and
  `src/cof/src/services/dice/implem/in_memory.rs` : the roll service
  specialised to the in-memory history saver; the meter is modelled as
  an observation log so that "the meter was invoked" is observable.

Machine integers (`u32`) are modelled as `Nat` with explicit
`% 2 ^ 32` or explicit comparisons against `2 ^ 32` exactly where the
Rust code performs checked or unchecked 32-bit arithmetic.  Randomness
is modelled as an explicit entropy stream `Nat → Nat`: die number `i`
of a roll draws `entropy i`, and `rand::rng().random_range(1..=n)` is
modelled as `1 + entropy i % n`, which takes exactly the values
`1 .. n`.
-/

deriving instance DecidableEq for Except

namespace CofDpm

/-! ### `Dice` (src/cof/src/model/dice/dice_type.rs) -/

/-- The `Dice` enum: the eight die kinds, discriminants 3,4,6,8,10,12,20,100. -/
inductive Dice
  | D3
  | D4
  | D6
  | D8
  | D10
  | D12
  | D20
  | D100
deriving DecidableEq

/-- `Dice::side_count`: the discriminant value (`*self as u32`). -/
def Dice.sideCount : Dice → Nat
  | .D3 => 3
  | .D4 => 4
  | .D6 => 6
  | .D8 => 8
  | .D10 => 10
  | .D12 => 12
  | .D20 => 20
  | .D100 => 100

/-- The model error enum (src/cof/src/model/dice/mod.rs), without the
`protobuf`-feature-gated variants (that feature is outside the embedded core). -/
inductive Error
  | DiceUnknown (token : String)
  | WayTooManyDices
  | DiceSetParseError
deriving DecidableEq

/-- The digit characters of a die token, e.g. `['1','0','0']` for `D100`.
The full token is `'d'` followed by these characters. -/
def Dice.tokenDigits : Dice → List Char
  | .D3 => ['3']
  | .D4 => ['4']
  | .D6 => ['6']
  | .D8 => ['8']
  | .D10 => ['1', '0']
  | .D12 => ['1', '2']
  | .D20 => ['2', '0']
  | .D100 => ['1', '0', '0']

/-- The characters of a die token (lowercase, as in `From<Dice> for &str`
and `Display for Dice`). -/
def Dice.tokenChars (d : Dice) : List Char := 'd' :: d.tokenDigits

/-- `TryFrom<&str> for Dice`: exact match against the eight lowercase
tokens, otherwise `Error::DiceUnknown` carrying the offending text. -/
def diceFromToken (cs : List Char) : Except Error Dice :=
  match cs with
  | ['d', '3'] => .ok .D3
  | ['d', '4'] => .ok .D4
  | ['d', '6'] => .ok .D6
  | ['d', '8'] => .ok .D8
  | ['d', '1', '0'] => .ok .D10
  | ['d', '1', '2'] => .ok .D12
  | ['d', '2', '0'] => .ok .D20
  | ['d', '1', '0', '0'] => .ok .D100
  | _ => .error (.DiceUnknown (String.mk cs))

/-- `RolledDice`: a die together with the result of rolling it. -/
structure RolledDice where
  dice : Dice
  result : Nat
deriving DecidableEq

/-- `Dice::roll`, with the random draw made explicit: the entropy value
`e` is mapped to `1 + e % side_count`, the uniform range `1..=side_count`. -/
def Dice.roll (d : Dice) (e : Nat) : RolledDice :=
  { dice := d, result := 1 + e % d.sideCount }

/-! ### `DiceSet` (src/cof/src/model/dice/dice_set.rs) -/

/-- `DiceSet`: an ordered sequence of dice. -/
structure DiceSet where
  dices : List Dice
deriving DecidableEq

/-- `RolledDiceSet`: the ordered outcomes of rolling a `DiceSet`. -/
structure RolledDiceSet where
  rolled : List RolledDice
deriving DecidableEq

/-- `DiceSet::lower_bound`: `u32::try_from(self.0.len())`, failing with
`WayTooManyDices` when the length does not fit in a `u32`. -/
def DiceSet.lower_bound (ds : DiceSet) : Except Error Nat :=
  if ds.dices.length < 2 ^ 32 then .ok ds.dices.length else .error .WayTooManyDices

/-- The `try_fold(0u32, |acc, dice| acc.checked_add(*dice as u32))` of
`DiceSet::upper_bound`, written as structural recursion with
`checked_add` inlined: the fold stops with `none` as soon as one addition
leaves the `u32` range. -/
def upperAux : List Dice → Nat → Option Nat
  | [], acc => some acc
  | d :: rest, acc =>
    if acc + d.sideCount < 2 ^ 32 then upperAux rest (acc + d.sideCount) else none

/-- `DiceSet::upper_bound`: checked sum of the side counts, `WayTooManyDices`
on overflow. -/
def DiceSet.upper_bound (ds : DiceSet) : Except Error Nat :=
  match upperAux ds.dices 0 with
  | some n => .ok n
  | none => .error .WayTooManyDices

/-- `self.0.into_iter().map(Dice::roll)`: each die, in order, draws the
next entropy value. -/
def rollList : List Dice → (Nat → Nat) → List RolledDice
  | [], _ => []
  | d :: rest, e => d.roll (e 0) :: rollList rest (fun i => e (i + 1))

/-- `DiceSet::roll`: recompute `upper_bound` first and fail with
`WayTooManyDices` without consuming entropy; otherwise roll every die in
order. -/
def DiceSet.roll (ds : DiceSet) (entropy : Nat → Nat) : Except Error RolledDiceSet :=
  match ds.upper_bound with
  | .error _ => .error .WayTooManyDices
  | .ok _ => .ok { rolled := rollList ds.dices entropy }

/-- `RolledDiceSet::total`: `fold(0u32, |acc, e| acc + e.result)` where `+`
is unchecked `u32` addition, modelled as addition modulo `2 ^ 32`. -/
def RolledDiceSet.total (r : RolledDiceSet) : Nat :=
  r.rolled.foldl (fun acc e => (acc + e.result) % 2 ^ 32) 0

/-! ### The notation scanner (`FromStr for DiceSet`)

The Rust code scans the input with the regex
`(?<number>[0-9]+)?(?<dice>d[0-9]+)` via `captures_iter`, i.e. it collects
successive non-overlapping leftmost matches.  Because a digit run can
never contain the letter `d`, the regex engine's leftmost-first search is
equivalent to the following direct scan: at each position take the
maximal digit run; if it is followed by `d` and at least one digit, emit
the capture `(number digits, dice digits)` and continue after the match,
otherwise move one character forward. -/

/-- Split off the maximal leading digit run (the greedy `[0-9]+`). -/
def takeDigits : List Char → List Char × List Char
  | [] => ([], [])
  | c :: cs =>
    if c.isDigit then
      let p := takeDigits cs
      (c :: p.1, p.2)
    else ([], c :: cs)

/-- Try to match `(?<number>[0-9]+)?(?<dice>d[0-9]+)` at the head of the
input; on success return (number digits, dice digits, rest of input). -/
def matchAt (s : List Char) : Option (List Char × List Char × List Char) :=
  match takeDigits s with
  | (numDs, 'd' :: r2) =>
    if (takeDigits r2).1 = [] then none
    else some (numDs, (takeDigits r2).1, (takeDigits r2).2)
  | _ => none

/-- Fuelled scanner; the fuel is always at least the input length, so the
fuel-zero branch with a nonempty input is never taken. -/
def scanFuel : Nat → List Char → List (List Char × List Char)
  | _, [] => []
  | 0, _ :: _ => []
  | f + 1, c :: cs =>
    match matchAt (c :: cs) with
    | some (nd, dd, rest) => (nd, dd) :: scanFuel f rest
    | none => scanFuel f cs

/-- `captures_iter`: the list of (number digits, dice digits) captures,
left to right. -/
def scan (s : List Char) : List (List Char × List Char) :=
  scanFuel s.length s

/-- Numeric value of a digit string (`'0'.toNat = 48`). -/
def digitsToNat (cs : List Char) : Nat :=
  cs.foldl (fun a c => 10 * a + (c.toNat - 48)) 0

/-- The body of the `captures_iter` closure: parse the optional count as a
`u32` (absent count defaults to 1; an overflowing count fails with
`DiceSetParseError`), then parse the dice token (propagating
`DiceUnknown`). -/
def parseCapture (cap : List Char × List Char) : Except Error (Nat × Dice) :=
  match (if cap.1 = [] then Except.ok 1
         else if digitsToNat cap.1 < 2 ^ 32 then Except.ok (digitsToNat cap.1)
         else Except.error Error.DiceSetParseError : Except Error Nat) with
  | .error e => .error e
  | .ok n =>
    match diceFromToken ('d' :: cap.2) with
    | .error e => .error e
    | .ok d => .ok (n, d)

/-- `collect::<Result<Vec<_>, _>>()`: left-to-right, first error wins. -/
def mapExcept (f : α → Except Error β) : List α → Except Error (List β)
  | [] => .ok []
  | a :: rest =>
    match f a with
    | .error e => .error e
    | .ok b =>
      match mapExcept f rest with
      | .error e => .error e
      | .ok bs => .ok (b :: bs)

/-- `flat_map(|(number, dice)| (0..number).map(move |_| dice))`. -/
def expandCaptures : List (Nat × Dice) → List Dice
  | [] => []
  | p :: rest => List.replicate p.1 p.2 ++ expandCaptures rest

/-- `FromStr for DiceSet` (`DiceSet::from_str`): scan the captures, parse
each one, fail with `DiceSetParseError` when no capture matched at all,
otherwise expand each capture to `number` copies of its die. -/
def from_str (s : String) : Except Error DiceSet :=
  match mapExcept parseCapture (scan s.toList) with
  | .error e => .error e
  | .ok pairs =>
    if pairs = [] then .error .DiceSetParseError
    else .ok { dices := expandCaptures pairs }

/-! ### `Display for DiceSet` -/

/-- All dice in ascending side-count order: the iteration order of a
`BTreeMap<Dice, _>` (the derived `Ord` on `Dice` follows the declaration
order, which is ascending in the side count). -/
def allDiceAsc : List Dice := [.D3, .D4, .D6, .D8, .D10, .D12, .D20, .D100]

/-- All dice in descending side-count order. -/
def allDiceDesc : List Dice := [.D100, .D20, .D12, .D10, .D8, .D6, .D4, .D3]

/-- The contents of the `dice_counts` `BTreeMap` built by
`Display for DiceSet`, in ascending key order: one entry per die kind
that occurs in the set, carrying its multiplicity.  The counter is a
`u32` (seeded `1u32` and bumped with the unchecked `*e += 1`), so the
stored value for a die occurring `c` times is `c` modulo `2 ^ 32`
(release-mode wrapping semantics). -/
def diceCounts (ds : DiceSet) : List (Dice × Nat) :=
  allDiceAsc.filterMap fun d =>
    if ds.dices.count d = 0 then none else some (d, ds.dices.count d % 2 ^ 32)

/-- Decimal digits of `n`, most significant first (`u32` `Display`),
written with explicit fuel so that it is structural. -/
def decDigitsCore : Nat → Nat → List Char
  | 0, _ => []
  | f + 1, n =>
    if n < 10 then [Nat.digitChar n]
    else decDigitsCore f (n / 10) ++ [Nat.digitChar (n % 10)]

/-- Decimal rendering of a natural number, most significant digit first. -/
def decDigits (n : Nat) : List Char := decDigitsCore (n + 1) n

/-- One rendered group: `format!("{dice}")` when the count is 1, otherwise
`format!("{count}{dice}")`. -/
def groupChars (p : Dice × Nat) : List Char :=
  (if p.2 = 1 then [] else decDigits p.2) ++ p.1.tokenChars

/-- `.join(" + ")` on the rendered groups. -/
def joinGroups : List (List Char) → List Char
  | [] => []
  | [g] => g
  | g :: g2 :: gs => g ++ ' ' :: '+' :: ' ' :: joinGroups (g2 :: gs)

/-- The characters written by `Display for DiceSet`: the `BTreeMap`
entries iterated in reverse (descending) order, rendered and joined. -/
def displayChars (ds : DiceSet) : List Char :=
  joinGroups ((diceCounts ds).reverse.map groupChars)

/-- `Display for DiceSet` as a string. -/
def DiceSet.display (ds : DiceSet) : String := String.mk (displayChars ds)

/-- The scanner capture (number digits, dice digits) produced by one
rendered display group. -/
def capOf (p : Dice × Nat) : List Char × List Char :=
  (if p.2 = 1 then [] else decDigits p.2, p.1.tokenDigits)

/-- Rendering described by the specification's own words: group the dice
by type with multiplicity, order the groups by side count descending,
render a group as `"<count><token>"` when its count is greater than 1 and
as `"<token>"` when it is 1, join with `" + "`.  This definition is the
spec side of the refinement claim about `Display for DiceSet`. -/
def renderSpec (ds : DiceSet) : String :=
  String.mk (joinGroups
    ((allDiceDesc.filter fun d => 0 < ds.dices.count d).map fun d =>
      (if 1 < ds.dices.count d then decDigits (ds.dices.count d) else []) ++ d.tokenChars))

/-! ### `RollId` (src/cof/src/services/dice/mod.rs)

`RollId` wraps a `uuid::Uuid`, a 128-bit value.  We model a `Uuid` as its
list of 32 hexadecimal nibbles, most significant first; this is a
faithful bijective representation of the 128-bit value.  `RollId::parse`
delegates to `Uuid::parse_str`, which (uuid crate, version 1.x) accepts
four textual forms: simple (32 hex digits), hyphenated (36 characters),
braced (hyphenated surrounded by braces, 38 characters) and the
`urn:uuid:`-prefixed hyphenated form (45 characters).
`RollId::into_string` / `Display` renders the lowercase hyphenated form. -/

/-- The service error enum (src/cof/src/services/dice/mod.rs). -/
inductive SError
  | NonExistingDiceRoll
  | RollIdParseError
  | FromModel (e : Error)
  | Underlying (msg : String)
deriving DecidableEq

/-- A UUID as its 32 hex nibbles, most significant first. -/
abbrev RollId := List Nat

/-- Value of one hexadecimal digit character, case-insensitive. -/
def hexVal (c : Char) : Option Nat :=
  if '0' ≤ c ∧ c ≤ '9' then some (c.toNat - 48)
  else if 'a' ≤ c ∧ c ≤ 'f' then some (c.toNat - 97 + 10)
  else if 'A' ≤ c ∧ c ≤ 'F' then some (c.toNat - 65 + 10)
  else none

/-- Lowercase hexadecimal digit character of a nibble. -/
def hexChar : Nat → Char
  | 0 => '0'
  | 1 => '1'
  | 2 => '2'
  | 3 => '3'
  | 4 => '4'
  | 5 => '5'
  | 6 => '6'
  | 7 => '7'
  | 8 => '8'
  | 9 => '9'
  | 10 => 'a'
  | 11 => 'b'
  | 12 => 'c'
  | 13 => 'd'
  | 14 => 'e'
  | 15 => 'f'
  | _ => '0'

/-- Hex-decode a character list into nibbles; fails on any non-hex digit. -/
def parseHexList : List Char → Option (List Nat)
  | [] => some []
  | c :: cs =>
    match hexVal c with
    | none => none
    | some v =>
      match parseHexList cs with
      | none => none
      | some vs => some (v :: vs)

/-- Insert the four hyphens of the canonical UUID rendering into a list of
32 hex digit characters (groups of 8-4-4-4-12). -/
def insertHyphens (h : List Char) : List Char :=
  h.take 8 ++ '-' ::
    ((h.drop 8).take 4 ++ '-' ::
      ((h.drop 12).take 4 ++ '-' ::
        ((h.drop 16).take 4 ++ '-' :: h.drop 20)))

/-- Parse the 36-character hyphenated UUID form: hyphens at offsets
8, 13, 18 and 23, the remaining 32 characters hexadecimal. -/
def parseHyphenated (cs : List Char) : Option RollId :=
  if cs.length = 36 ∧ cs[8]? = some '-' ∧ cs[13]? = some '-'
      ∧ cs[18]? = some '-' ∧ cs[23]? = some '-' then
    parseHexList (cs.take 8 ++ (cs.drop 9).take 4 ++ (cs.drop 14).take 4
      ++ (cs.drop 19).take 4 ++ cs.drop 24)
  else none

/-- The opening and closing brace characters of the braced UUID form. -/
def openBrace : Char := Char.ofNat 123

def closeBrace : Char := Char.ofNat 125

/-- `Uuid::parse_str` (uuid crate): dispatch on the input length to the
simple, hyphenated, braced or urn form. -/
def uuidTryParse (cs : List Char) : Option RollId :=
  if cs.length = 32 then parseHexList cs
  else if cs.length = 36 then parseHyphenated cs
  else if cs.length = 38 ∧ cs.head? = some openBrace ∧ cs.getLast? = some closeBrace then
    parseHyphenated ((cs.drop 1).take 36)
  else if cs.length = 45 ∧ cs.take 9 = ['u', 'r', 'n', ':', 'u', 'u', 'i', 'd', ':'] then
    parseHyphenated (cs.drop 9)
  else none

/-- `RollId::parse`: `Uuid::parse_str`, any failure mapped to
`Error::RollIdParseError`. -/
def RollId.parse (s : String) : Except SError RollId :=
  match uuidTryParse s.toList with
  | some u => .ok u
  | none => .error .RollIdParseError

/-- `RollId::into_string` / `Display for RollId`: the lowercase
hyphenated rendering of the wrapped UUID. -/
def RollId.into_string (id : RollId) : String :=
  String.mk (insertHyphens (id.map hexChar))

/-- A UUID value is well formed when it consists of exactly 32 nibbles. -/
def validUuid (id : RollId) : Prop := id.length = 32 ∧ ∀ v ∈ id, v < 16

/-- A hexadecimal digit character (either case), as a grammar predicate. -/
def isHexDigit (c : Char) : Prop :=
  ('0' ≤ c ∧ c ≤ '9') ∨ ('a' ≤ c ∧ c ≤ 'f') ∨ ('A' ≤ c ∧ c ≤ 'F')

instance (c : Char) : Decidable (isHexDigit c) := by
  unfold isHexDigit
  infer_instance

/-- The canonical hyphenated 36-character UUID grammar: four hyphens at
offsets 8, 13, 18 and 23 and hexadecimal digits everywhere else. -/
def hyphenatedShape (cs : List Char) : Prop :=
  cs.length = 36 ∧ cs[8]? = some '-' ∧ cs[13]? = some '-'
    ∧ cs[18]? = some '-' ∧ cs[23]? = some '-'
    ∧ ∀ c ∈ cs.take 8 ++ (cs.drop 9).take 4 ++ (cs.drop 14).take 4
        ++ (cs.drop 19).take 4 ++ cs.drop 24, isHexDigit c

/-- The simple UUID grammar: exactly 32 hexadecimal digits. -/
def simpleShape (cs : List Char) : Prop := cs.length = 32 ∧ ∀ c ∈ cs, isHexDigit c

/-- The braced UUID grammar: a hyphenated UUID surrounded by braces. -/
def bracedShape (cs : List Char) : Prop :=
  cs.length = 38 ∧ cs.head? = some openBrace ∧ cs.getLast? = some closeBrace
    ∧ hyphenatedShape ((cs.drop 1).take 36)

/-- The urn UUID grammar: a hyphenated UUID behind the prefix
`"urn:uuid:"`. -/
def urnShape (cs : List Char) : Prop :=
  cs.length = 45 ∧ cs.take 9 = ['u', 'r', 'n', ':', 'u', 'u', 'i', 'd', ':']
    ∧ hyphenatedShape (cs.drop 9)

instance (cs : List Char) : Decidable (hyphenatedShape cs) := by
  unfold hyphenatedShape
  infer_instance

instance (cs : List Char) : Decidable (simpleShape cs) := by
  unfold simpleShape
  infer_instance

instance (cs : List Char) : Decidable (bracedShape cs) := by
  unfold bracedShape
  infer_instance

instance (cs : List Char) : Decidable (urnShape cs) := by
  unfold urnShape
  infer_instance

/-! ### The roll service (src/cof/src/services/dice/service.rs)

`Service<R, M>` is generic in the history saver and the meter.  The
claims about it use the in-memory saver
(src/cof/src/services/dice/implem/in_memory.rs), so the embedding
specialises `R` to it: the `RwLock<HashMap<Uuid, RolledDiceSet>>` is an
association list with the newest binding first (`insert_entry`
overwrites, i.e. shadows, an existing binding) and `save_roll` always
returns `Ok`.  The meter is kept observable: `register_roll` appends the
observed set to a log, so a claim can state that the meter was or was
not invoked.  `Uuid::now_v7()` draws on the clock and on entropy, so the
freshly minted id is an explicit parameter of `roll_dices`. -/

/-- The state owned by a `Service` built on the in-memory saver: the
history map and the log of sets the meter has observed. -/
structure ServiceState where
  repo : List (RollId × RolledDiceSet)
  metered : List RolledDiceSet
deriving DecidableEq

/-- `HashMap::get` on the association-list model. -/
def lookupRoll (repo : List (RollId × RolledDiceSet)) (id : RollId) : Option RolledDiceSet :=
  (repo.find? fun p => p.1 == id).map fun p => p.2

/-- `DiceService::roll_dices`: roll (propagating the model error), mint
the given fresh id, let the meter observe the outcome, save it in the
history, and return `{id, rolled_dice_set}`.  On a roll error nothing
else happens and the state is returned unchanged. -/
def roll_dices (st : ServiceState) (ds : DiceSet) (entropy : Nat → Nat) (freshId : RollId) :
    Except SError (RollId × RolledDiceSet) × ServiceState :=
  match ds.roll entropy with
  | .error e => (.error (.FromModel e), st)
  | .ok rds =>
    (.ok (freshId, rds),
      { repo := (freshId, rds) :: st.repo, metered := st.metered ++ [rds] })

/-- `DiceService::get_dice_roll`: look the id up in the history; absent
ids fail with `NonExistingDiceRoll`, present ids are wrapped together
with the given id. -/
def get_dice_roll (st : ServiceState) (id : RollId) : Except SError (RollId × RolledDiceSet) :=
  match lookupRoll st.repo id with
  | none => .error .NonExistingDiceRoll
  | some rds => .ok (id, rds)

/-! ### Lemmas about bounds and rolling -/

theorem Dice.sideCount_pos (d : Dice) : 0 < d.sideCount := by
  cases d <;> decide

theorem Dice.roll_result_ge_one (d : Dice) (e : Nat) : 1 ≤ (d.roll e).result := by
  simp [Dice.roll]

theorem Dice.roll_result_le (d : Dice) (e : Nat) : (d.roll e).result ≤ d.sideCount := by
  have h1 : e % d.sideCount < d.sideCount := Nat.mod_lt _ d.sideCount_pos
  simp only [Dice.roll]
  omega

theorem upperAux_some_sum (l : List Dice) (acc r : Nat)
    (h : upperAux l acc = some r) : r = acc + (l.map Dice.sideCount).sum := by
  induction l generalizing acc with
  | nil => simp [upperAux] at h; simp [h]
  | cons d rest ih =>
    simp only [upperAux] at h
    split at h
    · have := ih _ h
      simp only [List.map_cons, List.sum_cons]
      omega
    · exact absurd h (by simp)

theorem upperAux_some_lt (l : List Dice) (acc r : Nat) (hacc : acc < 2 ^ 32)
    (h : upperAux l acc = some r) : r < 2 ^ 32 := by
  induction l generalizing acc with
  | nil => simp [upperAux] at h; omega
  | cons d rest ih =>
    simp only [upperAux] at h
    split at h
    next hlt => exact ih _ hlt h
    next => exact absurd h (by simp)

theorem upperAux_none_iff (l : List Dice) (acc : Nat) (hacc : acc < 2 ^ 32) :
    upperAux l acc = none ↔ 2 ^ 32 ≤ acc + (l.map Dice.sideCount).sum := by
  induction l generalizing acc with
  | nil => simp [upperAux]; omega
  | cons d rest ih =>
    simp only [upperAux, List.map_cons, List.sum_cons]
    split
    next hlt =>
      rw [ih _ hlt]
      omega
    next hge =>
      simp only [reduceCtorEq, true_iff]
      omega

theorem rollList_length (l : List Dice) (e : Nat → Nat) :
    (rollList l e).length = l.length := by
  induction l generalizing e with
  | nil => rfl
  | cons d rest ih => simp [rollList, ih]

theorem rollList_sum_le (l : List Dice) (e : Nat → Nat) :
    ((rollList l e).map RolledDice.result).sum ≤ (l.map Dice.sideCount).sum := by
  induction l generalizing e with
  | nil => simp [rollList]
  | cons d rest ih =>
    simp only [rollList, List.map_cons, List.sum_cons]
    exact Nat.add_le_add (d.roll_result_le _) (ih _)

theorem rollList_length_le_sum (l : List Dice) (e : Nat → Nat) :
    l.length ≤ ((rollList l e).map RolledDice.result).sum := by
  induction l generalizing e with
  | nil => simp [rollList]
  | cons d rest ih =>
    simp only [rollList, List.map_cons, List.sum_cons, List.length_cons]
    have := d.roll_result_ge_one (e 0)
    have := ih fun i => e (i + 1)
    omega

theorem foldl_wrap_eq_sum (l : List RolledDice) (acc : Nat)
    (h : acc + (l.map RolledDice.result).sum < 2 ^ 32) :
    l.foldl (fun a e => (a + e.result) % 2 ^ 32) acc
      = acc + (l.map RolledDice.result).sum := by
  induction l generalizing acc with
  | nil => simp
  | cons r rest ih =>
    simp only [List.foldl_cons, List.map_cons, List.sum_cons] at h ⊢
    have hlt : acc + r.result < 2 ^ 32 := by omega
    rw [Nat.mod_eq_of_lt hlt, ih _ (by omega)]
    omega

theorem upper_bound_ok (ds : DiceSet) (ub : Nat) (h : ds.upper_bound = .ok ub) :
    ub = (ds.dices.map Dice.sideCount).sum ∧ ub < 2 ^ 32 := by
  unfold DiceSet.upper_bound at h
  split at h
  next n hn =>
    cases h
    refine ⟨?_, upperAux_some_lt _ _ _ (by norm_num) hn⟩
    have := upperAux_some_sum _ _ _ hn
    omega
  next => exact absurd h (by simp)

theorem total_eq_exact_sum (ds : DiceSet) (entropy : Nat → Nat) (ub : Nat)
    (h : ds.upper_bound = .ok ub) :
    RolledDiceSet.total { rolled := rollList ds.dices entropy }
      = ((rollList ds.dices entropy).map RolledDice.result).sum := by
  obtain ⟨hsum, hlt⟩ := upper_bound_ok ds ub h
  have hle := rollList_sum_le ds.dices entropy
  unfold RolledDiceSet.total
  simpa using foldl_wrap_eq_sum (rollList ds.dices entropy) 0 (by omega)

/-- The upper bound of `n` hundred-sided dice overflows a `u32` as soon as
`2 ^ 32 ≤ 100 * n`: used to exhibit a concrete overflowing `DiceSet`. -/
theorem upper_bound_replicate_error (n : Nat) (h : 2 ^ 32 ≤ 100 * n) :
    DiceSet.upper_bound { dices := List.replicate n .D100 } = .error .WayTooManyDices := by
  unfold DiceSet.upper_bound
  have hsum : ((List.replicate n Dice.D100).map Dice.sideCount).sum = n * 100 := by
    simp [List.map_replicate, Dice.sideCount, List.sum_replicate, smul_eq_mul]
  have hnone : upperAux (List.replicate n .D100) 0 = none := by
    rw [upperAux_none_iff _ _ (by norm_num), hsum]
    omega
  rw [hnone]

/-- C2: for every `DiceSet` on which `lower_bound` and `upper_bound` both
succeed and for every possible outcome of the random draws, `roll`
succeeds and its `total()` lies between the two bounds. -/
theorem c2_roll_total_within_bounds (ds : DiceSet) (entropy : Nat → Nat) (lb ub : Nat)
    (hl : ds.lower_bound = .ok lb) (hu : ds.upper_bound = .ok ub) :
    ∃ rds, ds.roll entropy = .ok rds ∧ lb ≤ rds.total ∧ rds.total ≤ ub := by
  obtain ⟨hsum, hlt⟩ := upper_bound_ok ds ub hu
  have hlb : lb = ds.dices.length := by
    unfold DiceSet.lower_bound at hl
    split at hl
    · cases hl; rfl
    · exact absurd hl (by simp)
  refine ⟨{ rolled := rollList ds.dices entropy }, ?_, ?_, ?_⟩
  · simp [DiceSet.roll, hu]
  · rw [total_eq_exact_sum ds entropy ub hu, hlb]
    exact rollList_length_le_sum _ _
  · rw [total_eq_exact_sum ds entropy ub hu, hsum]
    exact rollList_sum_le _ _

/-- Witness for C2 at the concrete set `[D20]` with zero entropy. -/
theorem c2_witness :
    ∃ rds, DiceSet.roll { dices := [.D20] } (fun _ => 0) = .ok rds
      ∧ 1 ≤ rds.total ∧ rds.total ≤ 20 :=
  c2_roll_total_within_bounds { dices := [.D20] } (fun _ => 0) 1 20 (by decide) (by decide)

/-- C9: when `upper_bound` succeeds, the `u32` fold of `total()` never
wraps: it equals the exact mathematical sum of the individual results
(and stays below the upper bound). -/
theorem c9_total_no_overflow (ds : DiceSet) (entropy : Nat → Nat) (ub : Nat)
    (rds : RolledDiceSet) (hu : ds.upper_bound = .ok ub)
    (hr : ds.roll entropy = .ok rds) :
    rds.total = (rds.rolled.map RolledDice.result).sum ∧ rds.total ≤ ub := by
  have hrds : rds = { rolled := rollList ds.dices entropy } := by
    simp [DiceSet.roll, hu] at hr
    exact hr.symm
  subst hrds
  refine ⟨total_eq_exact_sum ds entropy ub hu, ?_⟩
  rw [total_eq_exact_sum ds entropy ub hu, (upper_bound_ok ds ub hu).1]
  exact rollList_sum_le _ _

/-- Witness for C9 at the concrete set `[D6]` with zero entropy. -/
theorem c9_witness :
    RolledDiceSet.total { rolled := [{ dice := .D6, result := 1 }] }
        = ([{ dice := Dice.D6, result := 1 }].map RolledDice.result).sum
      ∧ RolledDiceSet.total { rolled := [{ dice := .D6, result := 1 }] } ≤ 6 :=
  c9_total_no_overflow { dices := [.D6] } (fun _ => 0) 6
    { rolled := [{ dice := .D6, result := 1 }] } (by decide) (by decide)

/-- C4: a `DiceSet` whose upper bound overflows a `u32` makes both
`DiceSet::roll` and `Service::roll_dices` fail with `WayTooManyDices`
with no other effect: the result is the same for every entropy stream
and every candidate fresh id (so no entropy is consumed and no id is
minted), and the service state — history store and meter log — is
returned unchanged. -/
theorem c4_overflow_aborts_everything (ds : DiceSet)
    (h : ds.upper_bound = .error .WayTooManyDices) :
    (∀ entropy, ds.roll entropy = .error .WayTooManyDices) ∧
    (∀ st entropy freshId,
      roll_dices st ds entropy freshId = (.error (.FromModel .WayTooManyDices), st)) := by
  have hroll : ∀ entropy, ds.roll entropy = .error .WayTooManyDices := by
    intro entropy
    simp [DiceSet.roll, h]
  exact ⟨hroll, fun st entropy freshId => by simp [roll_dices, hroll]⟩

/-- Witness for C4: 42 949 673 hundred-sided dice overflow the `u32`
upper bound, and `roll_dices` on the empty service state surfaces
`WayTooManyDices` and leaves the state unchanged. -/
theorem c4_witness :
    roll_dices { repo := [], metered := [] }
        { dices := List.replicate 42949673 .D100 } (fun _ => 0) []
      = (.error (.FromModel .WayTooManyDices), { repo := [], metered := [] }) :=
  (c4_overflow_aborts_everything { dices := List.replicate 42949673 .D100 }
    (upper_bound_replicate_error 42949673 (by norm_num))).2 _ _ _

/-- C5: after a successful `roll_dices` against the in-memory history
saver, `get_dice_roll` on the resulting service state with the returned
id succeeds and returns exactly the response of `roll_dices`: the same
id and the same `RolledDiceSet` (same dice, same results, same order). -/
theorem c5_get_after_roll (st : ServiceState) (ds : DiceSet) (entropy : Nat → Nat)
    (freshId : RollId) (resp : RollId × RolledDiceSet) (st' : ServiceState)
    (h : roll_dices st ds entropy freshId = (.ok resp, st')) :
    get_dice_roll st' resp.1 = .ok resp := by
  unfold roll_dices at h
  cases hr : ds.roll entropy with
  | error e => rw [hr] at h; simp at h
  | ok rds =>
    rw [hr] at h
    simp only [Prod.mk.injEq, Except.ok.injEq] at h
    obtain ⟨hresp, hst⟩ := h
    subst hresp
    subst hst
    simp [get_dice_roll, lookupRoll, List.find?]

/-- Witness for C5: roll `[D20]` with zero entropy on the empty service
state, then retrieve it. -/
theorem c5_witness :
    get_dice_roll
        { repo := [([], { rolled := [{ dice := .D20, result := 1 }] })],
          metered := [{ rolled := [{ dice := .D20, result := 1 }] }] } []
      = .ok ([], { rolled := [{ dice := .D20, result := 1 }] }) :=
  c5_get_after_roll { repo := [], metered := [] } { dices := [.D20] } (fun _ => 0) []
    ([], { rolled := [{ dice := .D20, result := 1 }] })
    { repo := [([], { rolled := [{ dice := .D20, result := 1 }] })],
      metered := [{ rolled := [{ dice := .D20, result := 1 }] }] }
    (by decide)

/-- Counterexample to C1: `DiceSet::from_str("2d7")` does not fail with
`DiceSetParseError` — the regex matches the term and the unknown token
`"d7"` is propagated as `DiceUnknown("d7")`; and `from_str("D100")`
fails with `DiceSetParseError` (no term matches), not with
`DiceUnknown`.  The two listed error kinds are swapped. -/
theorem c1_counterexample :
    from_str "2d7" = .error (.DiceUnknown "d7")
    ∧ from_str "2d7" ≠ .error .DiceSetParseError
    ∧ from_str "D100" = .error .DiceSetParseError := by
  decide

/-- C1 as amended: `parse("2d7")` fails with `DiceUnknown("d7")`
(propagated from `Dice::try_from("d7")`), and `parse("D100")` fails with
`DiceSetParseError` (no term matches the case-sensitive grammar). -/
theorem c1_amended_errors :
    from_str "2d7" = .error (.DiceUnknown "d7")
    ∧ from_str "D100" = .error .DiceSetParseError := by
  decide

/-- C10: an explicit count of 0 is accepted: in `"0d20"` the term matches
the grammar (number capture `"0"`, dice capture `"d20"`), expands to zero
dice, and the parse succeeds with the empty `DiceSet` even though every
matched term expanded to nothing. -/
theorem c10_zero_count_parses_empty :
    scan "0d20".toList = [(['0'], ['2', '0'])]
    ∧ from_str "0d20" = .ok { dices := [] } := by
  decide

/-! ### Lemmas about `Display for DiceSet` -/

theorem map_groupChars_filterMap (cnt : Dice → Nat) (l : List Dice) :
    ((l.filterMap fun d => if cnt d = 0 then none else some (d, cnt d)).map groupChars)
      = (l.filter fun d => 0 < cnt d).map
          fun d => (if 1 < cnt d then decDigits (cnt d) else []) ++ d.tokenChars := by
  induction l with
  | nil => rfl
  | cons d rest ih =>
    by_cases h0 : cnt d = 0
    · simp [List.filterMap_cons, List.filter_cons, h0, ih]
    · have h1 : 0 < cnt d := Nat.pos_of_ne_zero h0
      rcases Nat.lt_or_ge 1 (cnt d) with h2 | h2
      · simp [List.filterMap_cons, List.filter_cons, h0, h1, ih, groupChars, h2, Nat.ne_of_gt h2]
      · have h3 : cnt d = 1 := by omega
        simp [List.filterMap_cons, List.filter_cons, h0, h1, ih, groupChars, h3]

theorem filterMap_allDiceAsc_reverse {β : Type} (f : Dice → Option β) :
    (allDiceAsc.filterMap f).reverse = allDiceDesc.filterMap f := by
  rw [← List.filterMap_reverse]
  have h : allDiceAsc.reverse = allDiceDesc := by decide
  rw [h]

/-- When every die's multiplicity fits in a `u32`, the wrapping counter
of `Display for DiceSet` stores the exact multiplicities. -/
theorem diceCounts_of_small (ds : DiceSet) (hcnt : ∀ d, ds.dices.count d < 2 ^ 32) :
    diceCounts ds
      = allDiceAsc.filterMap fun d =>
          if ds.dices.count d = 0 then none else some (d, ds.dices.count d) := by
  unfold diceCounts
  have h : (fun d => if ds.dices.count d = 0 then none
        else some (d, ds.dices.count d % 2 ^ 32))
      = fun d => if ds.dices.count d = 0 then none else some (d, ds.dices.count d) :=
    funext fun d => by rw [Nat.mod_eq_of_lt (hcnt d)]
  rw [h]

theorem count_replicate_d20 (n : Nat) (d : Dice) :
    (List.replicate n Dice.D20).count d = if Dice.D20 = d then n else 0 := by
  rw [List.count_replicate]
  simp [beq_iff_eq]

/-- Counterexample to C6: at a `DiceSet` holding `2 ^ 32` copies of
`D20`, the multiplicity is greater than 1, so the claimed rendering is
`"4294967296d20"` (which is what the spec-worded rendering produces),
but the `u32` occurrence counter of `Display for DiceSet` wraps to 0
and the set actually displays as `"0d20"`. -/
theorem c6_counterexample :
    DiceSet.display { dices := List.replicate (2 ^ 32) .D20 } = "0d20"
    ∧ renderSpec { dices := List.replicate (2 ^ 32) .D20 } = "4294967296d20"
    ∧ ({ dices := List.replicate (2 ^ 32) .D20 } : DiceSet).dices.count .D20 = 2 ^ 32
    ∧ DiceSet.display { dices := List.replicate (2 ^ 32) .D20 }
        ≠ renderSpec { dices := List.replicate (2 ^ 32) .D20 } := by
  have hc := count_replicate_d20 (2 ^ 32)
  have hc20 : (List.replicate (2 ^ 32) Dice.D20).count Dice.D20 = 2 ^ 32 := by
    rw [hc]
    rfl
  have hdc : diceCounts { dices := List.replicate (2 ^ 32) .D20 } = [(Dice.D20, 0)] := by
    unfold diceCounts allDiceAsc
    simp only [List.filterMap_cons, List.filterMap_nil, hc]
    decide
  have hdisp : DiceSet.display { dices := List.replicate (2 ^ 32) .D20 } = "0d20" := by
    unfold DiceSet.display displayChars
    rw [hdc]
    decide
  have hfil : allDiceDesc.filter
      (fun d => 0 < (List.replicate (2 ^ 32) Dice.D20).count d) = [Dice.D20] := by
    unfold allDiceDesc
    simp only [List.filter_cons, List.filter_nil, hc]
    decide
  have hrs : renderSpec { dices := List.replicate (2 ^ 32) .D20 } = "4294967296d20" := by
    unfold renderSpec
    rw [hfil]
    simp only [List.map_cons, List.map_nil, hc20]
    rw [if_pos (by norm_num)]
    decide
  exact ⟨hdisp, hrs, hc20, by rw [hdisp, hrs]; decide⟩

/-- C6 as amended: for every `DiceSet` whose per-die multiplicities all
fit in a `u32` (guaranteed in particular whenever `lower_bound`
succeeds), `Display for DiceSet` renders exactly the specification's
canonical form — dice grouped by type with multiplicity, groups ordered
by side count strictly descending, a group rendered as
`"<count><token>"` when its count exceeds 1 and as `"<token>"` when it
is 1, groups joined by `" + "`.  The strictly descending group order
and the consequence that any two `DiceSet`s with the same multiset of
dice display identically hold for every `DiceSet` without restriction. -/
theorem c6_display_canonical :
    (∀ ds : DiceSet, (∀ d, ds.dices.count d < 2 ^ 32) → ds.display = renderSpec ds)
    ∧ (∀ ds : DiceSet,
        ((allDiceDesc.filter fun d => 0 < ds.dices.count d).map Dice.sideCount).Pairwise (· > ·))
    ∧ (∀ ds₁ ds₂ : DiceSet,
        (∀ d, ds₁.dices.count d = ds₂.dices.count d) → ds₁.display = ds₂.display) := by
  refine ⟨?_, ?_, ?_⟩
  · intro ds hcnt
    unfold DiceSet.display renderSpec displayChars
    rw [diceCounts_of_small ds hcnt, filterMap_allDiceAsc_reverse, map_groupChars_filterMap]
  · intro ds
    have hbase : ((allDiceDesc.map Dice.sideCount)).Pairwise (· > ·) := by decide
    exact List.Pairwise.sublist (List.Sublist.map _ (List.filter_sublist _)) hbase
  · intro ds₁ ds₂ h
    have hf : (fun d => if ds₁.dices.count d = 0 then none
                  else some (d, ds₁.dices.count d % 2 ^ 32))
        = fun d => if ds₂.dices.count d = 0 then none
                  else some (d, ds₂.dices.count d % 2 ^ 32) :=
      funext fun d => by rw [h d]
    unfold DiceSet.display displayChars diceCounts
    rw [hf]

/-- Witness for C6's amended statement: the first (bounded-multiplicity)
conjunct at the multiset `{D100, D20, D20}`, and the multiset-invariance
conjunct at two permutations of it. -/
theorem c6_witness :
    (DiceSet.display { dices := [.D100, .D20, .D20] }
        = renderSpec { dices := [.D100, .D20, .D20] })
    ∧ DiceSet.display { dices := [.D20, .D100, .D20] }
        = DiceSet.display { dices := [.D100, .D20, .D20] } :=
  ⟨c6_display_canonical.1 { dices := [.D100, .D20, .D20] } (by intro d; cases d <;> decide),
   c6_display_canonical.2.2 { dices := [.D20, .D100, .D20] }
     { dices := [.D100, .D20, .D20] } (by intro d; cases d <;> rfl)⟩

/-! ### Lemmas about the notation scanner -/

theorem takeDigits_snd_length (l : List Char) : (takeDigits l).2.length ≤ l.length := by
  induction l with
  | nil => simp [takeDigits]
  | cons c cs ih =>
    simp only [takeDigits]
    split
    · simpa using Nat.le_succ_of_le ih
    · simp

theorem takeDigits_digits_append (C r : List Char) (h : ∀ c ∈ C, c.isDigit = true) :
    takeDigits (C ++ r) = (C ++ (takeDigits r).1, (takeDigits r).2) := by
  induction C with
  | nil => simp
  | cons c cs ih =>
    have hc : c.isDigit = true := h c (by simp)
    simp only [List.cons_append, takeDigits, hc, if_true, List.append_eq]
    rw [ih fun x hx => h x (by simp [hx])]

theorem takeDigits_head_nondigit (l : List Char)
    (h : ∀ c, l.head? = some c → c.isDigit = false) : takeDigits l = ([], l) := by
  cases l with
  | nil => rfl
  | cons c cs =>
    have hc := h c rfl
    simp [takeDigits, hc]

theorem matchAt_nil : matchAt [] = none := rfl

theorem matchAt_rest_length (s nd dd rest : List Char)
    (h : matchAt s = some (nd, dd, rest)) : rest.length < s.length := by
  unfold matchAt at h
  split at h
  next numDs r2 heq =>
    split at h
    · exact absurd h (by simp)
    · have h2 := takeDigits_snd_length s
      have h3 := takeDigits_snd_length r2
      rw [heq] at h2
      simp only [Option.some.injEq, Prod.mk.injEq] at h
      obtain ⟨-, -, hrest⟩ := h
      subst hrest
      simp only [List.length_cons] at h2
      omega
  next => exact absurd h (by simp)

theorem matchAt_skip (c : Char) (l : List Char) (hd : c.isDigit = false) (hne : c ≠ 'd') :
    matchAt (c :: l) = none := by
  unfold matchAt
  rw [takeDigits_head_nondigit (c :: l) (by intro x hx; cases hx; exact hd)]
  split
  next numDs r2 heq =>
    simp only [Prod.mk.injEq, List.cons.injEq] at heq
    exact absurd heq.2.1 hne
  next => rfl

theorem matchAt_group (C D l : List Char) (hC : ∀ c ∈ C, c.isDigit = true)
    (hD0 : D ≠ []) (hD : ∀ c ∈ D, c.isDigit = true)
    (hl : ∀ c, l.head? = some c → c.isDigit = false) :
    matchAt (C ++ 'd' :: (D ++ l)) = some (C, D, l) := by
  unfold matchAt
  rw [takeDigits_digits_append C ('d' :: (D ++ l)) hC,
    takeDigits_head_nondigit ('d' :: (D ++ l)) (by intro x hx; cases hx; rfl)]
  simp only [List.append_nil]
  rw [takeDigits_digits_append D l hD, takeDigits_head_nondigit l hl]
  simp [hD0]

theorem scanFuel_nil (f : Nat) : scanFuel f [] = [] := by
  cases f <;> rfl

theorem scanFuel_congr (f₁ : Nat) : ∀ (l : List Char) (f₂ : Nat),
    l.length ≤ f₁ → l.length ≤ f₂ → scanFuel f₁ l = scanFuel f₂ l := by
  induction f₁ with
  | zero =>
    intro l f₂ h1 _
    have : l = [] := List.eq_nil_of_length_eq_zero (by omega)
    subst this
    rw [scanFuel_nil, scanFuel_nil]
  | succ g ih =>
    intro l f₂ h1 h2
    cases l with
    | nil => rw [scanFuel_nil, scanFuel_nil]
    | cons c cs =>
      cases f₂ with
      | zero => simp at h2
      | succ h =>
        show (match matchAt (c :: cs) with
              | some (nd, dd, rest) => (nd, dd) :: scanFuel g rest
              | none => scanFuel g cs)
            = (match matchAt (c :: cs) with
              | some (nd, dd, rest) => (nd, dd) :: scanFuel h rest
              | none => scanFuel h cs)
        cases hm : matchAt (c :: cs) with
        | none =>
          simp only []
          exact ih cs h (by simpa using h1) (by simpa using h2)
        | some t =>
          obtain ⟨nd, dd, rest⟩ := t
          simp only []
          have hlen := matchAt_rest_length _ _ _ _ hm
          simp only [List.length_cons] at hlen h1 h2
          rw [ih rest h (by omega) (by omega)]

theorem scan_eq_some (l nd dd rest : List Char) (h : matchAt l = some (nd, dd, rest)) :
    scan l = (nd, dd) :: scan rest := by
  cases l with
  | nil => rw [matchAt_nil] at h; exact absurd h (by simp)
  | cons c cs =>
    have hstep : scan (c :: cs)
        = match matchAt (c :: cs) with
          | some (nd, dd, rest) => (nd, dd) :: scanFuel cs.length rest
          | none => scanFuel cs.length cs := rfl
    rw [hstep, h]
    show (nd, dd) :: scanFuel cs.length rest = (nd, dd) :: scan rest
    have hlen := matchAt_rest_length _ _ _ _ h
    simp only [List.length_cons] at hlen
    rw [scanFuel_congr cs.length rest rest.length (by omega) (le_refl _)]
    rfl

theorem scan_eq_skip (c : Char) (cs : List Char) (h : matchAt (c :: cs) = none) :
    scan (c :: cs) = scan cs := by
  have hstep : scan (c :: cs)
      = match matchAt (c :: cs) with
        | some (nd, dd, rest) => (nd, dd) :: scanFuel cs.length rest
        | none => scanFuel cs.length cs := rfl
  rw [hstep, h]
  show scanFuel cs.length cs = scan cs
  rfl

/-! ### Lemmas about decimal rendering -/

theorem digitChar_spec (n : Nat) (h : n < 10) :
    (Nat.digitChar n).isDigit = true ∧ (Nat.digitChar n).toNat - 48 = n := by
  interval_cases n <;> exact ⟨by decide, by decide⟩

theorem digitsToNat_append_singleton (l : List Char) (c : Char) :
    digitsToNat (l ++ [c]) = 10 * digitsToNat l + (c.toNat - 48) := by
  unfold digitsToNat
  rw [List.foldl_append]
  rfl

theorem decDigitsCore_spec (f : Nat) : ∀ n, n ≤ f →
    (∀ c ∈ decDigitsCore (f + 1) n, c.isDigit = true)
    ∧ decDigitsCore (f + 1) n ≠ []
    ∧ digitsToNat (decDigitsCore (f + 1) n) = n := by
  induction f with
  | zero =>
    intro n hn
    have : n = 0 := by omega
    subst this
    exact ⟨by decide, by decide, by decide⟩
  | succ g ih =>
    intro n hn
    by_cases h10 : n < 10
    · refine ⟨?_, by simp [decDigitsCore, h10], ?_⟩
      · intro c hc
        simp [decDigitsCore, h10] at hc
        subst hc
        exact (digitChar_spec n h10).1
      · simp [decDigitsCore, h10, digitsToNat, (digitChar_spec n h10).2]
    · have hstep : decDigitsCore (g + 1 + 1) n
          = decDigitsCore (g + 1) (n / 10) ++ [Nat.digitChar (n % 10)] := by
        simp [decDigitsCore, h10]
      have hdiv : n / 10 ≤ g := by
        have := Nat.div_lt_self (show 0 < n by omega) (show 1 < 10 by norm_num)
        omega
      obtain ⟨ihdig, ihne, ihval⟩ := ih (n / 10) hdiv
      refine ⟨?_, by simp [hstep], ?_⟩
      · intro c hc
        rw [hstep] at hc
        rcases List.mem_append.1 hc with hc | hc
        · exact ihdig c hc
        · simp at hc
          subst hc
          exact (digitChar_spec _ (Nat.mod_lt _ (by norm_num))).1
      · rw [hstep, digitsToNat_append_singleton, ihval,
          (digitChar_spec _ (Nat.mod_lt _ (by norm_num))).2]
        omega

theorem decDigits_digits (n : Nat) : ∀ c ∈ decDigits n, c.isDigit = true :=
  (decDigitsCore_spec n n (le_refl n)).1

theorem decDigits_ne_nil (n : Nat) : decDigits n ≠ [] :=
  (decDigitsCore_spec n n (le_refl n)).2.1

theorem digitsToNat_decDigits (n : Nat) : digitsToNat (decDigits n) = n :=
  (decDigitsCore_spec n n (le_refl n)).2.2

/-! ### Scanning a rendered display string -/

theorem tokenDigits_ne_nil (d : Dice) : d.tokenDigits ≠ [] := by
  cases d <;> decide

theorem tokenDigits_digits (d : Dice) : ∀ c ∈ d.tokenDigits, c.isDigit = true := by
  cases d <;> decide

theorem capOf_num_digits (p : Dice × Nat) : ∀ c ∈ (capOf p).1, c.isDigit = true := by
  unfold capOf
  split
  · simp
  · exact decDigits_digits p.2

theorem groupChars_shape (p : Dice × Nat) (l : List Char) :
    groupChars p ++ l = (capOf p).1 ++ 'd' :: (p.1.tokenDigits ++ l) := by
  unfold groupChars capOf Dice.tokenChars
  simp [List.append_assoc]

theorem scan_group_cons (p : Dice × Nat) (l : List Char)
    (hl : ∀ c, l.head? = some c → c.isDigit = false) :
    scan (groupChars p ++ l) = capOf p :: scan l := by
  rw [groupChars_shape]
  have hm := matchAt_group (capOf p).1 p.1.tokenDigits l (capOf_num_digits p)
    (tokenDigits_ne_nil p.1) (tokenDigits_digits p.1) hl
  rw [scan_eq_some _ _ _ _ hm]
  rfl

theorem scan_sep (l : List Char) : scan (' ' :: '+' :: ' ' :: l) = scan l := by
  rw [scan_eq_skip _ _ (matchAt_skip ' ' _ (by decide) (by decide)),
    scan_eq_skip _ _ (matchAt_skip '+' _ (by decide) (by decide)),
    scan_eq_skip _ _ (matchAt_skip ' ' _ (by decide) (by decide))]

theorem scan_joinGroups (gl : List (Dice × Nat)) :
    scan (joinGroups (gl.map groupChars)) = gl.map capOf := by
  induction gl with
  | nil => rfl
  | cons p rest ih =>
    cases rest with
    | nil =>
      show scan (joinGroups [groupChars p]) = [capOf p]
      have : joinGroups [groupChars p] = groupChars p ++ [] := by
        simp [joinGroups]
      rw [this, scan_group_cons p [] (by intro c hc; simp at hc)]
      rfl
    | cons q rest2 =>
      show scan (joinGroups (groupChars p :: groupChars q :: (rest2.map groupChars)))
        = capOf p :: capOf q :: (rest2.map capOf)
      rw [joinGroups]
      rw [show groupChars p ++ ' ' :: '+' :: ' '
            :: joinGroups (groupChars q :: rest2.map groupChars)
          = groupChars p ++ (' ' :: '+' :: ' '
            :: joinGroups (groupChars q :: rest2.map groupChars)) from rfl]
      rw [scan_group_cons p _ (by intro c hc; cases hc; decide), scan_sep]
      rw [show joinGroups (groupChars q :: rest2.map groupChars)
            = joinGroups ((q :: rest2).map groupChars) from rfl, ih]
      rfl

/-! ### Parsing the rendered captures back -/

theorem diceFromToken_token (d : Dice) : diceFromToken ('d' :: d.tokenDigits) = .ok d := by
  cases d <;> rfl

theorem parseCapture_capOf (p : Dice × Nat) (h1 : 0 < p.2) (h2 : p.2 < 2 ^ 32) :
    parseCapture (capOf p) = .ok (p.2, p.1) := by
  unfold parseCapture capOf
  by_cases hone : p.2 = 1
  · simp [hone, diceFromToken_token]
  · have hne := decDigits_ne_nil p.2
    simp only [hone, if_false, hne, digitsToNat_decDigits, diceFromToken_token]
    rw [if_pos (by omega)]

theorem mapExcept_map_ok {α β γ : Type} (f : β → Except Error γ) (g : α → β) (h : α → γ)
    (l : List α) (hall : ∀ a ∈ l, f (g a) = .ok (h a)) :
    mapExcept f (l.map g) = .ok (l.map h) := by
  induction l with
  | nil => rfl
  | cons a rest ih =>
    simp only [List.map_cons, mapExcept, hall a (by simp)]
    rw [ih fun x hx => hall x (by simp [hx])]

theorem mem_diceCounts (ds : DiceSet) (p : Dice × Nat) (hp : p ∈ diceCounts ds) :
    p.2 = ds.dices.count p.1 % 2 ^ 32 ∧ ds.dices.count p.1 ≠ 0 := by
  unfold diceCounts at hp
  obtain ⟨d, -, hd⟩ := List.mem_filterMap.1 hp
  by_cases h0 : ds.dices.count d = 0
  · simp [h0] at hd
  · simp only [h0, if_false, Option.some.injEq] at hd
    subst hd
    exact ⟨rfl, h0⟩

theorem count_expandCaptures (pairs : List (Nat × Dice)) (x : Dice) :
    (expandCaptures pairs).count x
      = (pairs.map fun p => if p.2 = x then p.1 else 0).sum := by
  induction pairs with
  | nil => rfl
  | cons p rest ih =>
    simp only [expandCaptures, List.count_append, ih, List.map_cons, List.sum_cons]
    congr 1
    rw [List.count_replicate]
    simp [beq_iff_eq]

theorem sum_filterMap_count (cnt : Dice → Nat) (x : Dice) :
    ∀ (l : List Dice), l.Nodup →
    ((l.filterMap fun d => if cnt d = 0 then none else some (d, cnt d)).map
        fun p => if p.1 = x then p.2 else 0).sum
      = if x ∈ l then cnt x else 0 := by
  intro l
  induction l with
  | nil => simp
  | cons d rest ih =>
    intro hnd
    have hdmem : d ∉ rest := (List.nodup_cons.1 hnd).1
    have hrest := (List.nodup_cons.1 hnd).2
    by_cases h0 : cnt d = 0
    · rw [List.filterMap_cons_none (by simp [h0]), ih hrest]
      by_cases hx : x = d
      · subst hx
        simp [hdmem, h0]
      · simp [hx]
    · rw [List.filterMap_cons_some (b := (d, cnt d)) (by simp [h0])]
      simp only [List.map_cons, List.sum_cons]
      rw [ih hrest]
      by_cases hx : x = d
      · subst hx
        simp [hdmem]
      · rw [if_neg (fun h => hx h.symm)]
        simp [List.mem_cons, hx]

theorem allDiceDesc_nodup : allDiceDesc.Nodup := by decide

theorem mem_allDiceDesc (d : Dice) : d ∈ allDiceDesc := by cases d <;> decide

/-- Counterexample to C3: `"0d20"` parses successfully (to the empty
`DiceSet`), but its rendering is the empty string, on which parse fails
with `DiceSetParseError`. -/
theorem c3_counterexample :
    from_str "0d20" = .ok { dices := [] }
    ∧ DiceSet.display { dices := [] } = ""
    ∧ from_str (DiceSet.display { dices := [] }) = .error .DiceSetParseError := by
  decide

/-- C3 as amended: for every input text on which `DiceSet::from_str`
succeeds with a *nonempty* `DiceSet` each of whose per-die multiplicities
fits in a `u32` (both guaranteed in particular whenever the count of dice
is positive and `lower_bound` succeeds), parsing the canonical rendering
succeeds and yields exactly the same multiset of dice. -/
theorem c3_format_parse_same_multiset (s : String) (ds : DiceSet)
    (hparse : from_str s = .ok ds) (hne : ds.dices ≠ [])
    (hcnt : ∀ d, ds.dices.count d < 2 ^ 32) :
    ∃ ds', from_str ds.display = .ok ds'
      ∧ ∀ d, ds'.dices.count d = ds.dices.count d := by
  have hscan : scan (ds.display).toList = ((diceCounts ds).reverse).map capOf := by
    show scan (displayChars ds) = _
    unfold displayChars
    exact scan_joinGroups _
  have hmap : mapExcept parseCapture (((diceCounts ds).reverse).map capOf)
      = .ok (((diceCounts ds).reverse).map fun p => (p.2, p.1)) := by
    apply mapExcept_map_ok
    intro p hp
    have hp' : p ∈ diceCounts ds := by simpa using hp
    obtain ⟨hc, hne0⟩ := mem_diceCounts ds p hp'
    have hceq : p.2 = ds.dices.count p.1 := by
      rw [hc, Nat.mod_eq_of_lt (hcnt p.1)]
    exact parseCapture_capOf p (by rw [hceq]; exact Nat.pos_of_ne_zero hne0)
      (by rw [hceq]; exact hcnt p.1)
  have hnonempty : ((diceCounts ds).reverse).map (fun p => (p.2, p.1)) ≠ [] := by
    obtain ⟨d, hd⟩ := List.exists_mem_of_ne_nil _ hne
    have hpos : 0 < ds.dices.count d := List.count_pos_iff.2 hd
    have hmem : (d, ds.dices.count d % 2 ^ 32) ∈ diceCounts ds := by
      unfold diceCounts
      refine List.mem_filterMap.2 ⟨d, by cases d <;> decide, ?_⟩
      rw [if_neg (by omega)]
    have : diceCounts ds ≠ [] := List.ne_nil_of_mem hmem
    simp [this]
  refine ⟨{ dices := expandCaptures (((diceCounts ds).reverse).map fun p => (p.2, p.1)) },
    ?_, ?_⟩
  · have hred : from_str ds.display
        = if ((diceCounts ds).reverse).map (fun p => (p.2, p.1)) = []
          then .error .DiceSetParseError
          else .ok { dices :=
            expandCaptures (((diceCounts ds).reverse).map fun p => (p.2, p.1)) } := by
      unfold from_str
      rw [hscan, hmap]
    rw [hred, if_neg hnonempty]
  · intro x
    show (expandCaptures _).count x = _
    rw [count_expandCaptures, List.map_map]
    have hfun : ((fun p => if (p : Nat × Dice).2 = x then p.1 else 0)
          ∘ fun p => ((p : Dice × Nat).2, p.1))
        = fun p => if (p : Dice × Nat).1 = x then p.2 else 0 := by
      funext p
      rfl
    rw [hfun, List.map_reverse, List.sum_reverse, diceCounts_of_small ds hcnt]
    have hsum := sum_filterMap_count (fun d => ds.dices.count d) x allDiceAsc (by decide)
    rw [if_pos (by cases x <;> decide)] at hsum
    exact hsum

/-- Witness for C3 at the concrete input `"d100 + 2d20"`. -/
theorem c3_witness :
    ∃ ds', from_str (DiceSet.display { dices := [.D100, .D20, .D20] }) = .ok ds'
      ∧ ∀ d, ds'.dices.count d
          = (({ dices := [.D100, .D20, .D20] } : DiceSet)).dices.count d :=
  c3_format_parse_same_multiset "d100 + 2d20" { dices := [.D100, .D20, .D20] }
    (by decide) (by decide) (by intro d; cases d <;> decide)

/-! ### Lemmas about `RollId` parsing and rendering -/

theorem getElem?_boundary (P r : List Char) (n : Nat) (hP : P.length = n) :
    (P ++ r)[n]? = r[0]? := by
  rw [List.getElem?_append_right (by omega)]
  simp [hP]

theorem parseHyphenated_segments (a b c d e : List Char)
    (ha : a.length = 8) (hb : b.length = 4) (hc : c.length = 4)
    (hd : d.length = 4) (he : e.length = 12) :
    parseHyphenated (a ++ '-' :: (b ++ '-' :: (c ++ '-' :: (d ++ '-' :: e))))
      = parseHexList (a ++ b ++ c ++ d ++ e) := by
  set cs := a ++ '-' :: (b ++ '-' :: (c ++ '-' :: (d ++ '-' :: e))) with hcs
  have hlen : cs.length = 36 := by
    simp [hcs, ha, hb, hc, hd, he]
  have h8 : cs[8]? = some '-' := by
    rw [hcs, getElem?_boundary _ _ _ ha]
    simp
  have e13 : cs = (a ++ '-' :: b) ++ ('-' :: (c ++ '-' :: (d ++ '-' :: e))) := by
    simp [hcs, List.append_assoc]
  have h13 : cs[13]? = some '-' := by
    rw [e13, getElem?_boundary _ _ _ (by simp [ha, hb])]
    simp
  have e18 : cs = (a ++ '-' :: (b ++ '-' :: c)) ++ ('-' :: (d ++ '-' :: e)) := by
    simp [hcs, List.append_assoc]
  have h18 : cs[18]? = some '-' := by
    rw [e18, getElem?_boundary _ _ _ (by simp [ha, hb, hc])]
    simp
  have e23 : cs = (a ++ '-' :: (b ++ '-' :: (c ++ '-' :: d))) ++ ('-' :: e) := by
    simp [hcs, List.append_assoc]
  have h23 : cs[23]? = some '-' := by
    rw [e23, getElem?_boundary _ _ _ (by simp [ha, hb, hc, hd])]
    simp
  have t8 : cs.take 8 = a := by
    rw [hcs, List.take_left' ha]
  have e9 : cs = (a ++ ['-']) ++ (b ++ '-' :: (c ++ '-' :: (d ++ '-' :: e))) := by
    simp [hcs, List.append_assoc]
  have t9 : (cs.drop 9).take 4 = b := by
    rw [e9, List.drop_left' (by simp [ha]), List.take_left' hb]
  have e14 : cs = (a ++ '-' :: (b ++ ['-'])) ++ (c ++ '-' :: (d ++ '-' :: e)) := by
    simp [hcs, List.append_assoc]
  have t14 : (cs.drop 14).take 4 = c := by
    rw [e14, List.drop_left' (by simp [ha, hb]), List.take_left' hc]
  have e19 : cs = (a ++ '-' :: (b ++ '-' :: (c ++ ['-']))) ++ (d ++ '-' :: e) := by
    simp [hcs, List.append_assoc]
  have t19 : (cs.drop 19).take 4 = d := by
    rw [e19, List.drop_left' (by simp [ha, hb, hc]), List.take_left' hd]
  have e24 : cs = (a ++ '-' :: (b ++ '-' :: (c ++ '-' :: (d ++ ['-'])))) ++ e := by
    simp [hcs, List.append_assoc]
  have t24 : cs.drop 24 = e := by
    rw [e24, List.drop_left' (by simp [ha, hb, hc, hd])]
  unfold parseHyphenated
  rw [if_pos ⟨hlen, h8, h13, h18, h23⟩, t8, t9, t14, t19, t24]

theorem recompose32 (l : List Char) :
    l.take 8 ++ (l.drop 8).take 4 ++ (l.drop 12).take 4 ++ (l.drop 16).take 4 ++ l.drop 20
      = l := by
  have h1 : l.take 8 ++ (l.drop 8).take 4 = l.take 12 := by
    rw [← List.take_add]
  have h2 : l.take 12 ++ (l.drop 12).take 4 = l.take 16 := by
    rw [← List.take_add]
  have h3 : l.take 16 ++ (l.drop 16).take 4 = l.take 20 := by
    rw [← List.take_add]
  rw [h1, h2, h3, List.take_append_drop]

theorem hexVal_hexChar (v : Nat) (hv : v < 16) : hexVal (hexChar v) = some v := by
  interval_cases v <;> decide

theorem parseHexList_map_hexChar (u : List Nat) (h : ∀ v ∈ u, v < 16) :
    parseHexList (u.map hexChar) = some u := by
  induction u with
  | nil => rfl
  | cons v rest ih =>
    simp only [List.map_cons, parseHexList, hexVal_hexChar v (h v (by simp)),
      ih fun x hx => h x (by simp [hx])]

/-- C8: for every well-formed UUID value (in particular every id minted
by `RollId::new()`), parsing the rendering produced by
`RollId::into_string` succeeds and returns the same id. -/
theorem c8_parse_left_inverse (id : RollId) (h : validUuid id) :
    RollId.parse (RollId.into_string id) = .ok id := by
  obtain ⟨hlen, hvals⟩ := h
  have hmaplen : (id.map hexChar).length = 32 := by simp [hlen]
  have hseg := parseHyphenated_segments ((id.map hexChar).take 8)
    (((id.map hexChar).drop 8).take 4) (((id.map hexChar).drop 12).take 4)
    (((id.map hexChar).drop 16).take 4) ((id.map hexChar).drop 20)
    (by simp [hmaplen]) (by simp [hmaplen]) (by simp [hmaplen]) (by simp [hmaplen])
    (by simp [hmaplen])
  have hins : insertHyphens (id.map hexChar)
      = (id.map hexChar).take 8 ++ '-' :: (((id.map hexChar).drop 8).take 4 ++ '-'
        :: (((id.map hexChar).drop 12).take 4 ++ '-'
          :: (((id.map hexChar).drop 16).take 4 ++ '-' :: (id.map hexChar).drop 20))) := rfl
  have hlen36 : (insertHyphens (id.map hexChar)).length = 36 := by
    simp [insertHyphens, hmaplen]
  have hparse : uuidTryParse (insertHyphens (id.map hexChar)) = some id := by
    unfold uuidTryParse
    simp only [hlen36]
    norm_num
    rw [hins, hseg, recompose32]
    exact parseHexList_map_hexChar id hvals
  show (match uuidTryParse (String.mk (insertHyphens (id.map hexChar))).toList with
        | some u => (Except.ok u : Except SError RollId)
        | none => .error .RollIdParseError) = .ok id
  rw [show (String.mk (insertHyphens (id.map hexChar))).toList
      = insertHyphens (id.map hexChar) from rfl, hparse]

/-- Witness for C8 at the all-zero UUID. -/
theorem c8_witness :
    RollId.parse (RollId.into_string (List.replicate 32 0)) = .ok (List.replicate 32 0) :=
  c8_parse_left_inverse (List.replicate 32 0) ⟨rfl, by decide⟩

theorem hexVal_isSome_hex (c : Char) (h : (hexVal c).isSome) : isHexDigit c := by
  unfold hexVal at h
  unfold isHexDigit
  split_ifs at h with h1 h2 h3
  · exact Or.inl h1
  · exact Or.inr (Or.inl h2)
  · exact Or.inr (Or.inr h3)
  · simp at h

theorem parseHexList_all_hex (cs : List Char) (l : List Nat)
    (h : parseHexList cs = some l) : ∀ c ∈ cs, isHexDigit c := by
  induction cs generalizing l with
  | nil => simp
  | cons c rest ih =>
    intro x hx
    simp only [parseHexList] at h
    split at h
    next hv => simp at h
    next v hv =>
      split at h
      next hrest => simp at h
      next vs hrest =>
        rcases List.mem_cons.1 hx with hx | hx
        · subst hx
          exact hexVal_isSome_hex x (by rw [hv]; rfl)
        · exact ih vs hrest x hx

theorem parseHyphenated_shape (cs : List Char) (u : RollId)
    (h : parseHyphenated cs = some u) : hyphenatedShape cs := by
  unfold parseHyphenated at h
  split_ifs at h with hc
  obtain ⟨h1, h2, h3, h4, h5⟩ := hc
  exact ⟨h1, h2, h3, h4, h5, parseHexList_all_hex _ _ h⟩

theorem uuidTryParse_shape (cs : List Char) (u : RollId) (h : uuidTryParse cs = some u) :
    simpleShape cs ∨ hyphenatedShape cs ∨ bracedShape cs ∨ urnShape cs := by
  unfold uuidTryParse at h
  split_ifs at h with h32 h36 h38 h45
  · exact Or.inl ⟨h32, parseHexList_all_hex _ _ h⟩
  · exact Or.inr (Or.inl (parseHyphenated_shape _ _ h))
  · obtain ⟨hl, hh, ht⟩ := h38
    exact Or.inr (Or.inr (Or.inl ⟨hl, hh, ht, parseHyphenated_shape _ _ h⟩))
  · obtain ⟨hl, hp⟩ := h45
    exact Or.inr (Or.inr (Or.inr ⟨hl, hp, parseHyphenated_shape _ _ h⟩))

/-- Counterexample to C7: the 32-character simple (non-hyphenated) form
is accepted by `RollId::parse`, although it is not the canonical
36-character hyphenated UUID grammar. -/
theorem c7_counterexample :
    RollId.parse "936da01f9abd4d9d80c702af85c822a8"
        = .ok [9, 3, 6, 13, 10, 0, 1, 15, 9, 10, 11, 13, 4, 13, 9, 13,
               8, 0, 12, 7, 0, 2, 10, 15, 8, 5, 12, 8, 2, 2, 10, 8]
    ∧ ¬ hyphenatedShape ("936da01f9abd4d9d80c702af85c822a8".toList) := by
  decide

/-- C7 as amended: `RollId::parse` rejects with `RollIdParseError` every
string that is in none of the four UUID textual forms accepted by the
UUID parser (simple 32-hex-digit, hyphenated 36-character, braced, and
`urn:uuid:`-prefixed); the canonical hyphenated form is not the only
accepted one. -/
theorem c7_reject_non_uuid (s : String)
    (h : ¬ (simpleShape s.toList ∨ hyphenatedShape s.toList
        ∨ bracedShape s.toList ∨ urnShape s.toList)) :
    RollId.parse s = .error .RollIdParseError := by
  unfold RollId.parse
  cases hu : uuidTryParse s.toList with
  | none => rfl
  | some u => exact absurd (uuidTryParse_shape _ _ hu) h

/-- Witness for C7's amended statement at a concrete non-UUID string. -/
theorem c7_witness : RollId.parse "not-a-uuid" = .error .RollIdParseError :=
  c7_reject_non_uuid "not-a-uuid" (by decide)

end CofDpm
